import Mathlib

/-!
# LetsChat relay server — verification of the spec against the code

Shallow embedding of the server core (`server/index.js`) of the LetsChat
end-to-end-encrypted relay: the credential verifier (HMAC-SHA256 based),
the room registry with its eviction sweep, the room-creation endpoint,
the admission middleware and the per-connection session handling
(zombie reconciliation, membership, `room_users` snapshot, message relay).

Bytes are `List Nat` (each entry a byte value), machine words are `Nat`
reduced mod 2^32 explicitly, timestamps are `Int` (JS `Date.now()`
millisecond values, subtracted exactly).  Node's lenient
`Buffer.from(s, 'hex')` decoding — which truncates at the first invalid
byte pair — is modelled faithfully, as is the `crypto.timingSafeEqual`
length-mismatch exception (via `Except`).
-/

namespace LetsChat

/-- Byte strings: each entry is one byte value (kept < 256 by construction). -/
abbrev Bytes := List Nat

/-- 32-bit truncation. -/
def w32 (n : Nat) : Nat := n % 4294967296

/-! ## Hex encoding / decoding (Node `Buffer` semantics) -/

/-- Value of one hex digit, `none` for a non-hex character. -/
def hexDigitVal (c : Char) : Option Nat :=
  if '0' ≤ c ∧ c ≤ '9' then some (c.toNat - 48)
  else if 'a' ≤ c ∧ c ≤ 'f' then some (c.toNat - 87)
  else if 'A' ≤ c ∧ c ≤ 'F' then some (c.toNat - 55)
  else none

/-- Decode hex character pairs, stopping at the first pair that is not two
valid hex digits (including a dangling final character).  This is Node's
documented `Buffer.from(s, 'hex')` behaviour: decoding is truncated at the
first invalid data, never an error. -/
def hexPairs : List Char → List Nat
  | c1 :: c2 :: rest =>
    match hexDigitVal c1, hexDigitVal c2 with
    | some hi, some lo => (16 * hi + lo) :: hexPairs rest
    | _, _ => []
  | _ => []

/-- Node's `Buffer.from(s, 'hex')`: lenient hex decoding of a string. -/
def hexDecodeLenient (s : String) : Bytes := hexPairs s.data

/-- `true` iff every character of `s` is a valid hex digit. -/
def isHexString (s : String) : Bool := s.data.all fun c => (hexDigitVal c).isSome

/-- ASCII bytes of a string (all source strings involved are ASCII). -/
def strBytes (s : String) : Bytes := s.data.map Char.toNat

/-! ## SHA-256 (FIPS 180-4), executable -/

/-- Right rotation of a 32-bit word. -/
def rotr32 (x n : Nat) : Nat := w32 ((x >>> n) ||| (x <<< (32 - n)))

/-- 32-bit bitwise complement. -/
def bnot32 (x : Nat) : Nat := 4294967295 ^^^ x

def ch32 (x y z : Nat) : Nat := (x &&& y) ^^^ (bnot32 x &&& z)

def maj32 (x y z : Nat) : Nat := (x &&& y) ^^^ (x &&& z) ^^^ (y &&& z)

def bigSigma0 (x : Nat) : Nat := rotr32 x 2 ^^^ rotr32 x 13 ^^^ rotr32 x 22

def bigSigma1 (x : Nat) : Nat := rotr32 x 6 ^^^ rotr32 x 11 ^^^ rotr32 x 25

def smallSigma0 (x : Nat) : Nat := rotr32 x 7 ^^^ rotr32 x 18 ^^^ (x >>> 3)

def smallSigma1 (x : Nat) : Nat := rotr32 x 17 ^^^ rotr32 x 19 ^^^ (x >>> 10)

/-- The 64 SHA-256 round constants. -/
def K256 : List Nat := [
  1116352408, 1899447441, 3049323471, 3921009573, 961987163, 1508970993, 2453635748, 2870763221,
  3624381080, 310598401, 607225278, 1426881987, 1925078388, 2162078206, 2614888103, 3248222580,
  3835390401, 4022224774, 264347078, 604807628, 770255983, 1249150122, 1555081692, 1996064986,
  2554220882, 2821834349, 2952996808, 3210313671, 3336571891, 3584528711, 113926993, 338241895,
  666307205, 773529912, 1294757372, 1396182291, 1695183700, 1986661051, 2177026350, 2456956037,
  2730485921, 2820302411, 3259730800, 3345764771, 3516065817, 3600352804, 4094571909, 275423344,
  430227734, 506948616, 659060556, 883997877, 958139571, 1322822218, 1537002063, 1747873779,
  1955562222, 2024104815, 2227730452, 2361852424, 2428436474, 2756734187, 3204031479, 3329325298]

/-- SHA-256 working state / chaining value: eight 32-bit words. -/
structure H8 where
  a : Nat
  b : Nat
  c : Nat
  d : Nat
  e : Nat
  f : Nat
  g : Nat
  h : Nat
deriving Repr, DecidableEq

/-- SHA-256 initial hash value. -/
def initH : H8 :=
  ⟨1779033703, 3144134277, 1013904242, 2773480762, 1359893119, 2600822924, 528734635, 1541459225⟩

/-- Extend a 16-word block to the 64-word message schedule (fuel = 48 steps). -/
def extendW : Nat → List Nat → List Nat
  | 0, ws => ws
  | n + 1, ws =>
    let i := ws.length
    let wNew := w32 (ws.getD (i - 16) 0 + smallSigma0 (ws.getD (i - 15) 0) +
      ws.getD (i - 7) 0 + smallSigma1 (ws.getD (i - 2) 0))
    extendW n (ws ++ [wNew])

/-- One SHA-256 compression round with round constant `k` and schedule word `w`. -/
def round256 (st : H8) (k w : Nat) : H8 :=
  let t1 := w32 (st.h + bigSigma1 st.e + ch32 st.e st.f st.g + k + w)
  let t2 := w32 (bigSigma0 st.a + maj32 st.a st.b st.c)
  ⟨w32 (t1 + t2), st.a, st.b, st.c, w32 (st.d + t1), st.e, st.f, st.g⟩

/-- Compress one 16-word block into the chaining value. -/
def compressBlock (hv : H8) (block : List Nat) : H8 :=
  let ws := extendW 48 block
  let st := (K256.zip ws).foldl (fun s p => round256 s p.1 p.2) hv
  ⟨w32 (hv.a + st.a), w32 (hv.b + st.b), w32 (hv.c + st.c), w32 (hv.d + st.d),
   w32 (hv.e + st.e), w32 (hv.f + st.f), w32 (hv.g + st.g), w32 (hv.h + st.h)⟩

/-- Big-endian bytes of a 32-bit word. -/
def toBE32 (x : Nat) : Bytes := [x / 16777216 % 256, x / 65536 % 256, x / 256 % 256, x % 256]

/-- Big-endian bytes of a 64-bit value. -/
def toBE64 (x : Nat) : Bytes := toBE32 (x / 4294967296) ++ toBE32 (x % 4294967296)

/-- SHA-256 padding: append `0x80`, zero bytes, and the 64-bit bit length. -/
def shaPad (msg : Bytes) : Bytes :=
  let L := msg.length
  let k := (120 - (L + 1) % 64) % 64
  msg ++ 128 :: List.replicate k 0 ++ toBE64 (8 * L)

/-- Group bytes into big-endian 32-bit words. -/
def bytesToWords : Bytes → List Nat
  | b0 :: b1 :: b2 :: b3 :: rest =>
    (b0 * 16777216 + b1 * 65536 + b2 * 256 + b3) :: bytesToWords rest
  | _ => []

/-- Fold the compression function over successive 16-word blocks
(fuel bounds the number of blocks; `ws.length` is always enough). -/
def processBlocks : Nat → H8 → List Nat → H8
  | 0, hv, _ => hv
  | fuel + 1, hv, ws =>
    match ws with
    | [] => hv
    | _ :: _ => processBlocks fuel (compressBlock hv (ws.take 16)) (ws.drop 16)

/-- SHA-256 of a byte string. -/
def sha256 (msg : Bytes) : Bytes :=
  let ws := bytesToWords (shaPad msg)
  let hv := processBlocks ws.length initH ws
  toBE32 hv.a ++ toBE32 hv.b ++ toBE32 hv.c ++ toBE32 hv.d ++
  toBE32 hv.e ++ toBE32 hv.f ++ toBE32 hv.g ++ toBE32 hv.h

/-- HMAC-SHA256 (RFC 2104): block size 64 bytes; a longer key is first
hashed, a shorter key is zero-padded. -/
def hmacSha256 (key msg : Bytes) : Bytes :=
  let k0 := if 64 < key.length then sha256 key else key
  let kp := k0 ++ List.replicate (64 - k0.length) 0
  sha256 ((kp.map fun b => b ^^^ 92) ++ sha256 ((kp.map fun b => b ^^^ 54) ++ msg))

/-! ## Credential verifier (`Security.verify`) -/

/-- The fixed purpose string the server HMACs: `"server_verify_purpose"`. -/
def purposeBytes : Bytes := strBytes "server_verify_purpose"

/-- `crypto.timingSafeEqual`: byte-for-byte comparison that throws
(`.error`) when the two buffers differ in length. -/
def timingSafeEqual (a b : Bytes) : Except String Bool :=
  if a.length = b.length then .ok (a == b)
  else .error "ERR_CRYPTO_TIMING_SAFE_EQUAL_LENGTH"

/-- `Security.verify(clientToken, storedServerHash)`.  The token is
`Option String` — `none` models a missing or non-string JS value, which the
`!clientToken || typeof clientToken !== 'string'` guard rejects, as it does
the empty string (falsy).  The result is `Except`: `.error` models a thrown
exception. -/
def verifyE (clientToken : Option String) (storedServerHash : String) : Except String Bool :=
  match clientToken with
  | none => .ok false
  | some t =>
    if t = "" then .ok false
    else
      let expectedHash := hmacSha256 (hexDecodeLenient t) purposeBytes
      let actualHash := hexDecodeLenient storedServerHash
      if expectedHash.length = actualHash.length then
        timingSafeEqual expectedHash actualHash
      else .ok false

/-- `Security.verify` as a Bool (it never actually throws; see the C5 theorem). -/
def verify (clientToken : Option String) (storedServerHash : String) : Bool :=
  match verifyE clientToken storedServerHash with
  | .ok b => b
  | .error _ => false

/-! ## Room registry -/

/-- A room record, as stored in the `rooms` map. -/
structure Room where
  serverHash : String
  createdAt : Int
  lastActive : Int
deriving Repr, DecidableEq

/-- The `rooms` JS `Map`: an association list in insertion order
(JS `Map` iteration order is insertion order). -/
abbrev Rooms := List (String × Room)

/-- `rooms.get(k)`. -/
def Rooms.get (rs : Rooms) (k : String) : Option Room :=
  (rs.find? fun p => p.1 == k).map fun p => p.2

/-- `rooms.has(k)`. -/
def Rooms.has (rs : Rooms) (k : String) : Bool := (Rooms.get rs k).isSome

/-- `rooms.set(k, v)`: replaces in place when present, else appends. -/
def Rooms.set (rs : Rooms) (k : String) (v : Room) : Rooms :=
  if Rooms.has rs k then rs.map fun p => if p.1 == k then (k, v) else p
  else rs ++ [(k, v)]

/-- Inactivity threshold: rooms are deleted after 1 hour (3600000 ms). -/
def evictionThresholdMs : Int := 3600000

/-- The sweeper's `setInterval` cadence: every 60 seconds. -/
def sweepIntervalMs : Nat := 60000

/-- Body of the periodic cleanup: delete every room with
`now - lastActive > 3600000`. -/
def sweep (now : Int) (rs : Rooms) : Rooms :=
  rs.filter fun p => !decide (now - p.2.lastActive > evictionThresholdMs)

/-- The room-activity touch done on join (index.js:117-118) and on message
relay (index.js:131-132): `if (room) room.lastActive = Date.now()`. -/
def touch (rs : Rooms) (chatId : String) (now : Int) : Rooms :=
  match Rooms.get rs chatId with
  | some r => Rooms.set rs chatId { r with lastActive := now }
  | none => rs

/-! ## Room creation endpoint -/

/-- Outcome of `POST /api/room/create`. -/
inductive CreateResult where
  | badRequest (body : String)
  | ok (chatId : String)
deriving Repr, DecidableEq

/-- `POST /api/room/create`.  `serverHash?` is `none` for a missing or
non-string body field.  `genIds` is the stream of ids that successive calls
of `Security.generateId()` would return; the handler draws exactly one
(`generateId` is called once, index.js:52). -/
def createRoom (genIds : List String) (now : Int) (serverHash? : Option String)
    (rs : Rooms) : CreateResult × Rooms :=
  match serverHash? with
  | none => (.badRequest "Invalid params", rs)
  | some h =>
    if h = "" ∨ 128 < h.length then (.badRequest "Invalid params", rs)
    else
      let chatId := genIds.headD ""
      if Rooms.has rs chatId then (.badRequest "Room already exists", rs)
      else (.ok chatId, Rooms.set rs chatId ⟨h, now, now⟩)

/-! ## Admission middleware (`io.use`) -/

/-- Outcome of the admission middleware: a refusal carries the
`Error` message given to `next`. -/
inductive AdmitDecision where
  | refused (errMessage : String)
  | accepted (chatId clientId encryptedUsername : String) (isNewSession : Bool)
deriving Repr, DecidableEq

/-- The `io.use` middleware.  `freshId` models the `crypto.randomUUID()`
value drawn when no `clientId` was supplied; `token`, `encryptedUsername`
and `clientId` are `none` when absent or non-string in the handshake. -/
def middleware (freshId : String) (chatId : String) (token : Option String)
    (encryptedUsername : Option String) (clientId : Option String)
    (rs : Rooms) : AdmitDecision :=
  match Rooms.get rs chatId with
  | some room =>
    if verify token room.serverHash then
      match encryptedUsername with
      | none => .refused "Invalid encrypted username"
      | some u =>
        if u = "" ∨ 256 < u.length then .refused "Invalid encrypted username"
        else
          match clientId with
          | none => .accepted chatId freshId u true
          | some c =>
            if c = "" then .accepted chatId freshId u true
            else .accepted chatId c u false
    else .refused "Authentication failed"
  | none => .refused "Authentication failed"

/-! ## Session coordinator (`io.on('connection')` and `socket.on('msg')`) -/

/-- A live, admitted connection with the fields the middleware bound to it. -/
structure Sock where
  sid : String
  chatId : String
  clientId : String
  encryptedUsername : String
deriving Repr, DecidableEq

/-- Server state: the room registry plus the joined live connections
(in join order).  A socket is in `socks` from its `socket.join(chatId)`
until its disconnect. -/
structure ServerState where
  rooms : Rooms
  socks : List Sock
deriving Repr, DecidableEq

/-- The broadcast set of room `c`: every joined live connection bound to it
(`io.in(c).fetchSockets()` on a single node). -/
def membersOf (st : ServerState) (c : String) : List Sock :=
  st.socks.filter fun t => t.chatId == c

/-- The `room_users` view of room `c`: `{id, encryptedUsername}` per member. -/
def roomUsersSnapshot (st : ServerState) (c : String) : List (String × String) :=
  (membersOf st c).map fun t => (t.sid, t.encryptedUsername)

/-- Observable effects of one admission. -/
structure AdmitEffects where
  sessionSet : String
  zombiesDisconnected : List String
  roomUsers : List (String × String)
  userJoinedTargets : List String
  state : ServerState
deriving Repr, DecidableEq

/-- The `io.on('connection')` handler run for an accepted socket `s`
(connected, not yet in any room), as one atomic step — the Node event loop
is single-threaded and this server is a single node, so no other handler
interleaves.  Order is that of index.js:91-128: zombie scan and forced
disconnects (lines 98-112) strictly before `socket.join` (line 114), then
the activity touch, then the `room_users` snapshot (fetched after the join,
so it includes `s` itself), then the `user_joined` broadcast to the others. -/
def admitConn (now : Int) (s : Sock) (st : ServerState) : AdmitEffects :=
  let zombies :=
    if s.clientId ≠ "" then
      (membersOf st s.chatId).filter fun t => t.clientId == s.clientId && t.sid != s.sid
    else []
  let socks1 := st.socks.filter fun t => !zombies.contains t
  let socks2 := socks1 ++ [s]
  let st1 : ServerState := ⟨touch st.rooms s.chatId now, socks2⟩
  { sessionSet := s.clientId
    zombiesDisconnected := zombies.map fun t => t.sid
    roomUsers := roomUsersSnapshot st1 s.chatId
    userJoinedTargets :=
      ((membersOf st1 s.chatId).filter fun t => t.sid != s.sid).map fun t => t.sid
    state := st1 }

/-- The `socket.on('msg')` handler: touch the room's activity, then forward
the payload to every socket of the room except the sender
(`socket.to(chatId).emit('msg', payload)`).  The payload type is a type
variable: the server passes the value through without inspecting it. -/
def onMsg {α : Type} (now : Int) (sender : Sock) (payload : α)
    (st : ServerState) : ServerState × List (String × α) :=
  let targets := (membersOf st sender.chatId).filter fun t => t.sid != sender.sid
  (⟨touch st.rooms sender.chatId now, st.socks⟩, targets.map fun t => (t.sid, payload))

/-- Iterated activity touches (the only post-creation mutations of the
registry performed by the handlers): each op is a `(chatId, now)` pair. -/
def applyTouches (ops : List (String × Int)) (rs : Rooms) : Rooms :=
  ops.foldl (fun acc op => touch acc op.1 op.2) rs

/-- The zombie set the admission scan of `s` finds: every socket of `s`'s
room sharing `s`'s clientId, other than `s` itself. -/
def zombieSet (s : Sock) (st : ServerState) : List Sock :=
  (membersOf st s.chatId).filter fun t => t.clientId == s.clientId && t.sid != s.sid

/-- At most one live connection per `(roomId, clientId)` pair. -/
def atMostOnePerPair (socks : List Sock) : Prop :=
  ∀ a ∈ socks, ∀ b ∈ socks, a.chatId = b.chatId → a.clientId = b.clientId → a = b

/-- Modelled from the spec's words, for comparison against the code (the
C4 claim): "clientToken is a string whose hex-decoded bytes, used as the
key of an HMAC-SHA256 over the fixed message `server_verify_purpose`,
yield a digest equal byte-for-byte to the hex decoding of storedHash". -/
def claimedVerifyCondition (clientToken : Option String) (storedHash : String) : Prop :=
  ∃ t, clientToken = some t ∧
    hmacSha256 (hexDecodeLenient t) purposeBytes = hexDecodeLenient storedHash

/-! ## Concrete fixtures used by witnesses and counterexamples -/

/-- A room record as created with hash `"h"` at time 0. -/
def roomA : Room := ⟨"h", 0, 0⟩

/-- A first connection, admitted to room `"1"`. -/
def sockX : Sock := ⟨"sX", "1", "cX", "abc"⟩

/-- A second connection, admitted to room `"1"`. -/
def sockY : Sock := ⟨"sY", "1", "cY", "def"⟩

/-- Room `"1"` live with `sockX` and `sockY` joined. -/
def stXY : ServerState := ⟨[("1", roomA)], [sockX, sockY]⟩

/-- Room `"1"` live, nobody joined yet. -/
def stEmpty : ServerState := ⟨[("1", roomA)], []⟩

/-- A connection holding clientId `"c1"` in room `"1"`. -/
def sockA : Sock := ⟨"sA", "1", "c1", "ua"⟩

/-- A later connection for the same logical client `"c1"`. -/
def sockB : Sock := ⟨"sB", "1", "c1", "ub"⟩

/-- Room `"1"` live with only `sockA` joined. -/
def stA : ServerState := ⟨[("1", roomA)], [sockA]⟩

/-- Hex of HMAC-SHA256 with all-zero key over `"server_verify_purpose"`:
the stored hash that token `"00"` (and, because short HMAC keys are
zero-padded, also the hex-decodes-to-nothing tokens) verifies against. -/
def d0Hex : String := "d39d0b93d3042fd109d4b1cabb14f5c43647c039c677840920f389fb93cc87ad"

/-- A room whose stored hash `d0Hex` is verified by token `"00"`. -/
def roomGood : Room := ⟨d0Hex, 0, 0⟩

/-- A room whose stored hash decodes to a single byte: no token verifies. -/
def roomBad : Room := ⟨"ff", 0, 0⟩

/-- Registry with the unjoinable room `"1"` and the joinable room `"2"`. -/
def rsTwo : Rooms := [("1", roomBad), ("2", roomGood)]

/-! ## Registry lemmas -/

theorem Rooms.get_nil (k : String) : Rooms.get [] k = none := rfl

theorem Rooms.get_cons (p : String × Room) (rs : Rooms) (k : String) :
    Rooms.get (p :: rs) k = if p.1 = k then some p.2 else Rooms.get rs k := by
  by_cases h : p.1 = k <;> simp [Rooms.get, List.find?_cons, h]

theorem Rooms.get_map_replace_self (rs : Rooms) (k : String) (v : Room)
    (hh : Rooms.has rs k = true) :
    Rooms.get (rs.map fun p => if p.1 == k then (k, v) else p) k = some v := by
  simp only [beq_iff_eq]
  induction rs with
  | nil => simp [Rooms.has, Rooms.get] at hh
  | cons p rs ih =>
    by_cases h : p.1 = k
    · simp [Rooms.get_cons, h]
    · have hh' : Rooms.has rs k = true := by
        simpa [Rooms.has, Rooms.get_cons, h] using hh
      simp [Rooms.get_cons, h, ih hh']

theorem Rooms.get_append_single_self (rs : Rooms) (k : String) (v : Room)
    (hh : Rooms.has rs k = false) :
    Rooms.get (rs ++ [(k, v)]) k = some v := by
  induction rs with
  | nil => simp [Rooms.get_cons]
  | cons p rs ih =>
    have h : ¬p.1 = k := by
      intro h; simp [Rooms.has, Rooms.get_cons, h] at hh
    have hh' : Rooms.has rs k = false := by
      simpa [Rooms.has, Rooms.get_cons, h] using hh
    simp [Rooms.get_cons, h, ih hh']

theorem Rooms.get_set_self (rs : Rooms) (k : String) (v : Room) :
    Rooms.get (Rooms.set rs k v) k = some v := by
  by_cases hh : Rooms.has rs k
  · simp only [Rooms.set, hh, if_true]
    exact Rooms.get_map_replace_self rs k v hh
  · simp only [Rooms.set, hh, Bool.false_eq_true, if_false]
    exact Rooms.get_append_single_self rs k v (by simpa using hh)

theorem Rooms.get_map_replace_other (rs : Rooms) (k k' : String) (v : Room)
    (hne : k' ≠ k) :
    Rooms.get (rs.map fun p => if p.1 == k then (k, v) else p) k' = Rooms.get rs k' := by
  simp only [beq_iff_eq]
  induction rs with
  | nil => rfl
  | cons p rs ih =>
    have hq : ¬(k' : String) = k := hne
    by_cases h : p.1 = k
    · have hp : ¬(k : String) = k' := fun he => hne he.symm
      have hp2 : ¬p.1 = k' := by rw [h]; exact hp
      simp [Rooms.get_cons, h, hp, hp2, ih]
    · by_cases h2 : p.1 = k'
      · simp [Rooms.get_cons, h, h2, hq]
      · simp [Rooms.get_cons, h, h2, ih]

theorem Rooms.get_append_single_other (rs : Rooms) (k k' : String) (v : Room)
    (hne : k' ≠ k) :
    Rooms.get (rs ++ [(k, v)]) k' = Rooms.get rs k' := by
  induction rs with
  | nil =>
    have hp : ¬(k : String) = k' := fun he => hne he.symm
    simp [Rooms.get_cons, Rooms.get_nil, hp]
  | cons p rs ih =>
    by_cases h : p.1 = k'
    · simp [Rooms.get_cons, h]
    · simp [Rooms.get_cons, h, ih]

theorem Rooms.get_set_other (rs : Rooms) (k k' : String) (v : Room) (hne : k' ≠ k) :
    Rooms.get (Rooms.set rs k v) k' = Rooms.get rs k' := by
  by_cases hh : Rooms.has rs k
  · simp only [Rooms.set, hh, if_true]
    exact Rooms.get_map_replace_other rs k k' v hne
  · simp only [Rooms.set, hh, Bool.false_eq_true, if_false]
    exact Rooms.get_append_single_other rs k k' v hne

theorem touch_get_self (rs : Rooms) (c : String) (now : Int) :
    Rooms.get (touch rs c now) c =
      (Rooms.get rs c).map fun r => { r with lastActive := now } := by
  cases h : Rooms.get rs c with
  | none => simp [touch, h]
  | some r => simp [touch, h, Rooms.get_set_self]

theorem touch_get_other (rs : Rooms) (c c' : String) (now : Int) (hne : c' ≠ c) :
    Rooms.get (touch rs c now) c' = Rooms.get rs c' := by
  cases h : Rooms.get rs c with
  | none => simp [touch, h]
  | some r => simp [touch, h, Rooms.get_set_other _ _ _ _ hne]

/-! ## C7 — eviction sweep -/

/-- C7: the sweep keeps a room iff its inactivity `now - lastActive` is at
most the 1-hour threshold (so it removes exactly the rooms strictly past
it); a room exactly at the boundary survives, one millisecond past it is
evicted; the threshold is 3600000 ms and the sweeper cadence 60000 ms. -/
theorem sweep_evicts_iff_strictly_past_threshold (now : Int) (rs : Rooms) (p : String × Room) :
    (p ∈ sweep now rs ↔ p ∈ rs ∧ now - p.2.lastActive ≤ 3600000) ∧
    evictionThresholdMs = 3600000 ∧ sweepIntervalMs = 60000 ∧
    sweep 3600000 [("1", roomA)] = [("1", roomA)] ∧
    sweep 3600001 [("1", roomA)] = [] := by
  refine ⟨?_, rfl, rfl, by decide, by decide⟩
  simp [sweep, List.mem_filter, evictionThresholdMs, not_lt]

/-! ## C8 — room-id collision handling at creation -/

/-- C8 counterexample: with the generator stream `["1", "2"]` and room `"1"`
live (while `"2"` is free), creation returns the `Conflict` answer
(`400 "Room already exists"`) at once — the handler never regenerates,
though a fresh id was available next in the stream. -/
theorem createRoom_collision_not_retried_cex :
    createRoom ["1", "2"] 0 (some "h") [("1", roomA)] =
      (CreateResult.badRequest "Room already exists", [("1", roomA)]) ∧
    Rooms.has [("1", roomA)] "2" = false := by
  constructor <;> decide

/-- C8 amended: when the single generated id collides with a live room, the
creation endpoint surfaces `400 "Room already exists"` immediately, leaves
the registry unchanged, and never draws another id (the outcome does not
depend on the rest of the generator stream). -/
theorem createRoom_conflict_surfaced_immediately (g : String) (ids ids' : List String)
    (now now' : Int) (hash : String) (rs : Rooms)
    (hne : hash ≠ "") (hlen : hash.length ≤ 128) (hcol : Rooms.has rs g = true) :
    createRoom (g :: ids) now (some hash) rs =
      (CreateResult.badRequest "Room already exists", rs) ∧
    createRoom (g :: ids) now (some hash) rs = createRoom (g :: ids') now' (some hash) rs := by
  have hv : ¬(hash = "" ∨ 128 < hash.length) := by
    push_neg
    exact ⟨hne, hlen⟩
  simp [createRoom, hv, hcol]

/-- Witness for the amended C8 at a concrete collision. -/
theorem createRoom_conflict_surfaced_immediately_witness :
    createRoom ["1", "2"] 0 (some "h") [("1", roomA)] =
      (CreateResult.badRequest "Room already exists", [("1", roomA)]) :=
  (createRoom_conflict_surfaced_immediately "1" ["2"] [] 0 7 "h" [("1", roomA)]
    (by decide) (by decide) (by decide)).1

/-! ## C9 — frame property of activity touches -/

theorem applyTouches_preserves (ops : List (String × Int)) (rs : Rooms)
    (c : String) (r : Room) (hc : Rooms.get rs c = some r) :
    ∃ r', Rooms.get (applyTouches ops rs) c = some r' ∧
      r'.serverHash = r.serverHash ∧ r'.createdAt = r.createdAt ∧
      (r'.lastActive = r.lastActive ∨ r'.lastActive ∈ ops.map Prod.snd) := by
  induction ops generalizing rs r with
  | nil => exact ⟨r, hc, rfl, rfl, Or.inl rfl⟩
  | cons op ops ih =>
    simp only [applyTouches, List.foldl_cons] at *
    by_cases hco : op.1 = c
    · have h1 : Rooms.get (touch rs op.1 op.2) c = some { r with lastActive := op.2 } := by
        rw [hco, touch_get_self, hc]; rfl
      obtain ⟨r', hg, hsh, hca, hla⟩ := ih _ _ h1
      refine ⟨r', hg, hsh, hca, Or.inr ?_⟩
      rcases hla with h | h
      · simp [h]
      · simp only [List.map_cons, List.mem_cons]
        exact Or.inr h
    · have h1 : Rooms.get (touch rs op.1 op.2) c = some r := by
        rw [touch_get_other _ _ _ _ (fun he => hco he.symm)]; exact hc
      obtain ⟨r', hg, hsh, hca, hla⟩ := ih _ _ h1
      refine ⟨r', hg, hsh, hca, ?_⟩
      rcases hla with h | h
      · exact Or.inl h
      · exact Or.inr (by simp only [List.map_cons, List.mem_cons]; exact Or.inr h)

theorem applyTouches_untouched (ops : List (String × Int)) (rs : Rooms) (c : String)
    (hnc : ∀ p ∈ ops, p.1 ≠ c) :
    Rooms.get (applyTouches ops rs) c = Rooms.get rs c := by
  induction ops generalizing rs with
  | nil => rfl
  | cons op ops ih =>
    simp only [applyTouches, List.foldl_cons] at *
    rw [ih _ (fun p hp => hnc p (by simp [hp]))]
    exact touch_get_other _ _ _ _ (fun he => hnc op (by simp) he.symm)

/-- C9: the join-time touch and the message-relay touch both go through
`touch`; any sequence of touches leaves `serverHash` and `createdAt` of
every room unchanged, leaves rooms that are never touched entirely
unchanged, moves `lastActive` only to one of the supplied clock values
(non-decreasing when the clock is), and a single touch rewrites exactly
`lastActive` to the current time. -/
theorem touch_changes_only_lastActive (ops : List (String × Int)) (rs : Rooms)
    (c : String) (r : Room) (hc : Rooms.get rs c = some r) :
    (∃ r', Rooms.get (applyTouches ops rs) c = some r' ∧
      r'.serverHash = r.serverHash ∧ r'.createdAt = r.createdAt ∧
      ((∀ p ∈ ops, r.lastActive ≤ p.2) → r.lastActive ≤ r'.lastActive)) ∧
    ((∀ p ∈ ops, p.1 ≠ c) → Rooms.get (applyTouches ops rs) c = some r) ∧
    (∀ now (s : Sock) (st : ServerState),
      (admitConn now s st).state.rooms = touch st.rooms s.chatId now) ∧
    (∀ now (sn : Sock) (pl : String) (st : ServerState),
      (onMsg now sn pl st).1.rooms = touch st.rooms sn.chatId now) ∧
    (∀ now, Rooms.get (touch rs c now) c = some { r with lastActive := now }) := by
  refine ⟨?_, ?_, fun _ _ _ => rfl, fun _ _ _ _ => rfl, ?_⟩
  · obtain ⟨r', hg, hsh, hca, hla⟩ := applyTouches_preserves ops rs c r hc
    refine ⟨r', hg, hsh, hca, fun hall => ?_⟩
    rcases hla with h | h
    · exact h ▸ le_refl _
    · obtain ⟨p, hp, hpe⟩ := List.mem_map.mp h
      exact hpe ▸ hall p hp
  · intro h
    rw [applyTouches_untouched ops rs c h]
    exact hc
  · intro now
    rw [touch_get_self, hc]
    rfl

/-- Witness for C9: one touch of room `"1"` at time 5 yields the same
record with `lastActive = 5`. -/
theorem touch_changes_only_lastActive_witness :
    Rooms.get (touch [("1", roomA)] "1" 5) "1" = some ⟨"h", 0, 5⟩ :=
  (touch_changes_only_lastActive [] [("1", roomA)] "1" roomA (by decide)).2.2.2.2 5

/-! ## C3 — message relay -/

/-- C3: on a `msg` event from a joined connection whose room is live, the
handler touches exactly that room's `lastActive` (other rooms and the
membership are untouched) and forwards the payload — an opaque value of an
arbitrary type, so no parsing or inspection is possible — verbatim to
exactly the members of the sender's room other than the sender; when the
sender is alone in the room, the send list is empty (the handler is a total
function: nothing is raised). -/
theorem msg_relay_verbatim_to_others {α : Type} (now : Int) (sender : Sock)
    (payload : α) (st : ServerState) :
    (∀ i (q : α), (i, q) ∈ (onMsg now sender payload st).2 ↔
      (q = payload ∧ i ≠ sender.sid ∧
        ∃ t ∈ st.socks, t.chatId = sender.chatId ∧ t.sid = i)) ∧
    (∀ r, Rooms.get st.rooms sender.chatId = some r →
      Rooms.get (onMsg now sender payload st).1.rooms sender.chatId =
        some { r with lastActive := now }) ∧
    (∀ c, c ≠ sender.chatId →
      Rooms.get (onMsg now sender payload st).1.rooms c = Rooms.get st.rooms c) ∧
    ((onMsg now sender payload st).1.socks = st.socks) ∧
    ((∀ t ∈ st.socks, t.chatId = sender.chatId → t.sid = sender.sid) →
      (onMsg now sender payload st).2 = []) := by
  refine ⟨?_, ?_, ?_, rfl, ?_⟩
  · intro i q
    simp only [onMsg, membersOf, List.mem_map, List.mem_filter, List.filter_filter]
    constructor
    · rintro ⟨t, ⟨ht, hcond⟩, heq⟩
      simp only [Bool.and_eq_true, beq_iff_eq, bne_iff_ne, ne_eq] at hcond
      obtain ⟨he1, he2⟩ := Prod.mk.injEq .. ▸ heq
      exact ⟨he2.symm, he1 ▸ hcond.1, t, ht, hcond.2, he1⟩
    · rintro ⟨hq, hi, t, ht, hc, hs⟩
      refine ⟨t, ⟨ht, ?_⟩, by rw [hs, hq]⟩
      simp only [Bool.and_eq_true, beq_iff_eq, bne_iff_ne, ne_eq]
      exact ⟨hs ▸ hi, hc⟩
  · intro r hr
    show Rooms.get (touch st.rooms sender.chatId now) sender.chatId = _
    rw [touch_get_self, hr]
    rfl
  · intro c hc
    exact touch_get_other _ _ _ _ hc
  · intro hall
    simp only [onMsg, membersOf, List.filter_filter, List.map_eq_nil_iff,
      List.filter_eq_nil_iff]
    intro t ht
    simp only [Bool.and_eq_true, beq_iff_eq, bne_iff_ne, ne_eq, not_and]
    intro hns hc
    exact hns (hall t ht hc)

/-- Witness for C3: `sockX` relays `"p"` in `stXY`; the room is touched and
the only recipient is `sockY`, verbatim. -/
theorem msg_relay_verbatim_to_others_witness :
    Rooms.get (onMsg 5 sockX "p" stXY).1.rooms "1" = some ⟨"h", 0, 5⟩ ∧
    (("sY", "p") ∈ (onMsg 5 sockX "p" stXY).2 ↔
      ("p" = "p" ∧ "sY" ≠ sockX.sid ∧
        ∃ t ∈ stXY.socks, t.chatId = sockX.chatId ∧ t.sid = "sY")) :=
  ⟨(msg_relay_verbatim_to_others 5 sockX "p" stXY).2.1 roomA (by decide),
   (msg_relay_verbatim_to_others 5 sockX "p" stXY).1 "sY" "p"⟩

/-! ## C6 — admission refusal -/

/-- C6: the middleware refuses with the authentication error exactly when
the target room is absent or the token fails verification against the
target room's hash — one and the same refusal value for both causes — and
a token that verifies against some other live room's hash is still refused
for the target room. -/
theorem admission_refused_iff_room_absent_or_bad_token
    (freshId chatId : String) (token eu cid : Option String) (rs : Rooms) :
    (middleware freshId chatId token eu cid rs =
        AdmitDecision.refused "Authentication failed" ↔
      (Rooms.get rs chatId = none ∨
        ∃ room, Rooms.get rs chatId = some room ∧
          verify token room.serverHash = false)) ∧
    (∀ c1 c2 r1 r2, Rooms.get rs c1 = some r1 → Rooms.get rs c2 = some r2 →
      verify token r2.serverHash = true → verify token r1.serverHash = false →
      middleware freshId c1 token eu cid rs =
        AdmitDecision.refused "Authentication failed") := by
  constructor
  · cases h : Rooms.get rs chatId with
    | none => simp [middleware, h]
    | some room =>
      by_cases hv : verify token room.serverHash
      · have hval : middleware freshId chatId token eu cid rs ≠
            AdmitDecision.refused "Authentication failed" := by
          rcases eu with _ | u
          · simp [middleware, h, hv]
          · by_cases hu : u = "" ∨ 256 < u.length
            · simp [middleware, h, hv, hu]
            · rcases cid with _ | c
              · simp [middleware, h, hv, hu]
              · by_cases hcc : c = "" <;> simp [middleware, h, hv, hu, hcc]
        simp only [hval, false_iff]
        rintro (hn | ⟨room', hr', hv'⟩)
        · exact Option.some_ne_none _ hn
        · injection hr' with hrr
          rw [← hrr, hv] at hv'
          exact Bool.noConfusion hv'
      · rw [Bool.not_eq_true] at hv
        simp [middleware, h, hv]
  · intro c1 c2 r1 r2 h1 h2 hv2 hv1
    simp [middleware, h1, hv1]

set_option maxRecDepth 1000000 in
/-- Witness for C6: token `"00"` verifies against room `"2"`'s hash but is
refused when targeting room `"1"`. -/
theorem admission_refused_iff_room_absent_or_bad_token_witness :
    middleware "f" "1" (some "00") (some "abc") none rsTwo =
      AdmitDecision.refused "Authentication failed" :=
  (admission_refused_iff_room_absent_or_bad_token "f" "1" (some "00")
    (some "abc") none rsTwo).2 "1" "2" roomBad roomGood
    (by decide) (by decide) (by decide) (by decide)

/-! ## C1 — room_users snapshot -/

/-- C1 counterexample: the first connection admitted to a fresh room does
not receive an empty `room_users` list — the snapshot is fetched after
`socket.join(chatId)` (index.js:114 before 123), so it contains the newly
admitted connection itself. -/
theorem room_users_first_join_not_empty_cex :
    (admitConn 5 sockX stEmpty).roomUsers = [("sX", "abc")] ∧
    (admitConn 5 sockX stEmpty).roomUsers ≠ [] := by
  constructor <;> decide

/-- Membership in a `room_users` view. -/
theorem mem_roomUsersSnapshot (st : ServerState) (c i u : String) :
    (i, u) ∈ roomUsersSnapshot st c ↔
      ∃ t ∈ st.socks, t.chatId = c ∧ t.sid = i ∧ t.encryptedUsername = u := by
  simp only [roomUsersSnapshot, membersOf, List.mem_map, List.mem_filter, beq_iff_eq]
  constructor
  · rintro ⟨t, ⟨ht, hc⟩, heq⟩
    obtain ⟨h1, h2⟩ := Prod.mk.injEq .. ▸ heq
    exact ⟨t, ht, hc, h1, h2⟩
  · rintro ⟨t, ht, hc, h1, h2⟩
    exact ⟨t, ⟨ht, hc⟩, by rw [h1, h2]⟩

/-- C1 amended: the one-time `room_users` snapshot sent to an admitted
connection lists exactly the live members of the room as of just after the
join — *including* the newly admitted connection itself: the first
connection admitted to a fresh room receives `[{id: X, ...}]` (itself), and
a second connection Y admitted after X receives `[X's entry, Y's entry]`. -/
theorem room_users_snapshot_includes_self (now : Int) (s : Sock) (st : ServerState) :
    (∀ i u, (i, u) ∈ (admitConn now s st).roomUsers ↔
      ∃ t ∈ (admitConn now s st).state.socks,
        t.chatId = s.chatId ∧ t.sid = i ∧ t.encryptedUsername = u) ∧
    (admitConn 1 sockX stEmpty).roomUsers = [("sX", "abc")] ∧
    (admitConn 2 sockY (admitConn 1 sockX stEmpty).state).roomUsers =
      [("sX", "abc"), ("sY", "def")] := by
  refine ⟨fun i u => mem_roomUsersSnapshot _ _ i u, by decide, by decide⟩

/-! ## C2 — zombie reconciliation -/

theorem admit_state_socks (now : Int) (s : Sock) (st : ServerState)
    (hcid : s.clientId ≠ "") :
    (admitConn now s st).state.socks =
      (st.socks.filter fun t => !(zombieSet s st).contains t) ++ [s] := by
  simp [admitConn, zombieSet, hcid]

theorem admit_zombies_disconnected (now : Int) (s : Sock) (st : ServerState)
    (hcid : s.clientId ≠ "") :
    (admitConn now s st).zombiesDisconnected = (zombieSet s st).map fun t => t.sid := by
  simp [admitConn, zombieSet, hcid]

/-- C2: admitting `s` forcibly disconnects every prior live connection of
the pair `(s.chatId, s.clientId)` before `s` joins the broadcast set:
afterwards such a prior connection is out of the broadcast set (so receives
no further room events, in particular not the `user_joined` broadcast), `s`
is the unique holder of its pair, the at-most-one-per-pair invariant is
preserved for all pairs, and `s` appears exactly once in the `room_users`
snapshot taken after the admission. -/
theorem zombie_reconciliation_before_registration (now : Int) (s : Sock)
    (st : ServerState)
    (hfresh : ∀ t ∈ st.socks, t.sid ≠ s.sid)
    (hnodup : (st.socks.map Sock.sid).Nodup)
    (hcid : s.clientId ≠ "") :
    (∀ a ∈ st.socks, a.chatId = s.chatId → a.clientId = s.clientId →
      a.sid ∈ (admitConn now s st).zombiesDisconnected ∧
      a ∉ (admitConn now s st).state.socks ∧
      a ∉ membersOf (admitConn now s st).state s.chatId) ∧
    (∀ t ∈ (admitConn now s st).state.socks,
      t.chatId = s.chatId → t.clientId = s.clientId → t = s) ∧
    (atMostOnePerPair st.socks → atMostOnePerPair (admitConn now s st).state.socks) ∧
    ((roomUsersSnapshot (admitConn now s st).state s.chatId).countP
      (fun p => p.1 == s.sid) = 1) ∧
    (∀ a ∈ st.socks, a.chatId = s.chatId → a.clientId = s.clientId →
      a.sid ∉ (admitConn now s st).userJoinedTargets) := by
  have hZ : ∀ a ∈ st.socks, a.chatId = s.chatId → a.clientId = s.clientId →
      a ∈ zombieSet s st := by
    intro a ha hac hacl
    have hsid : a.sid ≠ s.sid := hfresh a ha
    simp only [zombieSet, membersOf, List.mem_filter, beq_iff_eq, bne_iff_ne,
      Bool.and_eq_true, ne_eq]
    exact ⟨⟨ha, hac⟩, hacl, hsid⟩
  have hsocks := admit_state_socks now s st hcid
  -- a socket of the new broadcast set that is not `s` survived the zombie filter
  have hmem : ∀ t ∈ (admitConn now s st).state.socks,
      t = s ∨ (t ∈ st.socks ∧ t ∉ zombieSet s st) := by
    intro t ht
    rw [hsocks] at ht
    rcases List.mem_append.mp ht with h | h
    · have h' := List.mem_filter.mp h
      refine Or.inr ⟨h'.1, ?_⟩
      have := h'.2
      simpa using this
    · exact Or.inl (by simpa using h)
  refine ⟨?_, ?_, ?_, ?_, ?_⟩
  · intro a ha hac hacl
    have haz := hZ a ha hac hacl
    have hsid : a.sid ≠ s.sid := hfresh a ha
    refine ⟨?_, ?_, ?_⟩
    · rw [admit_zombies_disconnected now s st hcid]
      exact List.mem_map.mpr ⟨a, haz, rfl⟩
    · intro hin
      rcases hmem a hin with h | h
      · exact hsid (by rw [h])
      · exact h.2 haz
    · intro hin
      have hin' := (List.mem_filter.mp hin).1
      rcases hmem a hin' with h | h
      · exact hsid (by rw [h])
      · exact h.2 haz
  · intro t ht htc htcl
    rcases hmem t ht with h | h
    · exact h
    · exact absurd (hZ t h.1 htc htcl) h.2
  · intro hinv a ha b hb hab habcl
    rcases hmem a ha with ha' | ha' <;> rcases hmem b hb with hb' | hb'
    · rw [ha', hb']
    · -- a = s, b survived: b holds s's pair, so b would have been a zombie
      subst ha'
      exact absurd (hZ b hb'.1 hab.symm habcl.symm) hb'.2
    · subst hb'
      exact absurd (hZ a ha'.1 hab habcl) ha'.2
    · exact hinv a ha'.1 b hb'.1 hab habcl
  · -- exactly one entry for s.sid in the post-admission snapshot
    simp only [roomUsersSnapshot, List.countP_map]
    have : membersOf (admitConn now s st).state s.chatId =
        ((st.socks.filter fun t => !(zombieSet s st).contains t).filter
          fun t => t.chatId == s.chatId) ++ [s] := by
      simp only [membersOf, hsocks, List.filter_append]
      congr 1
      simp
    rw [this, List.countP_append]
    have h0 : ((st.socks.filter fun t => !(zombieSet s st).contains t).filter
        fun t => t.chatId == s.chatId).countP
          ((fun p => p.1 == s.sid) ∘ fun t => (t.sid, t.encryptedUsername)) = 0 := by
      rw [List.countP_eq_zero]
      intro t ht
      have ht1 : t ∈ st.socks := (List.mem_filter.mp (List.mem_filter.mp ht).1).1
      simp only [Function.comp_apply, beq_iff_eq]
      exact fun he => hfresh t ht1 (by simpa using he)
    rw [h0]
    simp
  · intro a ha hac hacl
    have haz := hZ a ha hac hacl
    have hsid : a.sid ≠ s.sid := hfresh a ha
    intro hin
    have hut : (admitConn now s st).userJoinedTargets =
        ((membersOf (admitConn now s st).state s.chatId).filter
          fun t => t.sid != s.sid).map (fun t => t.sid) := rfl
    rw [hut] at hin
    obtain ⟨t, htf, hteq⟩ := List.mem_map.mp hin
    have htm : t ∈ membersOf (admitConn now s st).state s.chatId :=
      (List.mem_filter.mp htf).1
    have htsocks : t ∈ (admitConn now s st).state.socks := (List.mem_filter.mp htm).1
    rcases hmem t htsocks with h | h
    · subst h
      exact hsid hteq.symm
    · have hta : t = a := List.inj_on_of_nodup_map hnodup h.1 ha hteq
      subst hta
      exact h.2 haz

/-- Witness for C2: admitting `sockB` over the live `sockA` with the same
clientId leaves exactly one `room_users` entry for `sockB`. -/
theorem zombie_reconciliation_before_registration_witness :
    (roomUsersSnapshot (admitConn 7 sockB stA).state sockB.chatId).countP
      (fun p => p.1 == sockB.sid) = 1 :=
  (zombie_reconciliation_before_registration 7 sockB stA
    (by decide) (by decide) (by decide)).2.2.2.1

/-! ## C4 — verifier characterization -/

set_option maxRecDepth 1000000 in
/-- C4 counterexample: at `clientToken = some ""`, `storedHash = d0Hex` the
claimed equivalence fails — the empty string is a string whose hex-decoded
bytes (the empty key) yield exactly the digest stored in `d0Hex`, yet
`verify` returns `false`, because the `!clientToken` guard rejects the
empty string before any HMAC comparison. -/
theorem verify_iff_digest_match_cex :
    ¬(verify (some "") d0Hex = true ↔ claimedVerifyCondition (some "") d0Hex) := by
  intro hiff
  have h2 : hmacSha256 (hexDecodeLenient "") purposeBytes = hexDecodeLenient d0Hex := by
    decide
  have h1 : verify (some "") d0Hex = false := by decide
  have h3 := hiff.mpr ⟨"", rfl, h2⟩
  rw [h1] at h3
  exact Bool.noConfusion h3

/-- C4 amended: `verify clientToken storedHash` returns `true` iff
`clientToken` is a *nonempty* string whose (leniently, Node-style)
hex-decoded bytes, used as the HMAC-SHA256 key over
`"server_verify_purpose"`, yield a digest equal byte-for-byte to the
lenient hex decoding of `storedHash`. -/
theorem verify_true_iff_nonempty_token_digest_match (t? : Option String) (stored : String) :
    verify t? stored = true ↔
      ∃ t, t? = some t ∧ t ≠ "" ∧
        hmacSha256 (hexDecodeLenient t) purposeBytes = hexDecodeLenient stored := by
  cases t? with
  | none => simp [verify, verifyE]
  | some t =>
    by_cases ht : t = ""
    · subst ht
      simp [verify, verifyE]
    · constructor
      · intro h
        refine ⟨t, rfl, ht, ?_⟩
        by_cases hlen : (hmacSha256 (hexDecodeLenient t) purposeBytes).length =
            (hexDecodeLenient stored).length
        · have hvv : verify (some t) stored =
              (hmacSha256 (hexDecodeLenient t) purposeBytes == hexDecodeLenient stored) := by
            simp [verify, verifyE, ht, hlen, timingSafeEqual]
          rw [hvv] at h
          exact eq_of_beq h
        · have hvv : verify (some t) stored = false := by
            simp [verify, verifyE, ht, hlen]
          rw [hvv] at h
          exact Bool.noConfusion h
      · rintro ⟨t', het, ht', heq⟩
        injection het with het'
        subst het'
        have hlen : (hmacSha256 (hexDecodeLenient t) purposeBytes).length =
            (hexDecodeLenient stored).length := by rw [heq]
        simp [verify, verifyE, ht, hlen, timingSafeEqual, heq]

/-! ## C5 — verifier totality and guard failures -/

set_option maxRecDepth 1000000 in
/-- C5 counterexample: `"zz"` contains no valid hex digit (and is not
odd-length), yet `verify` returns `true` for it against the stored hash
`d0Hex`: Node's `Buffer.from('zz','hex')` decodes leniently to the empty
byte string, and the empty key's HMAC digest is exactly `d0Hex`'s bytes. -/
theorem verify_nonhex_token_can_succeed_cex :
    isHexString "zz" = false ∧ String.length "zz" % 2 = 0 ∧
    verify (some "zz") d0Hex = true := by
  refine ⟨by decide, by decide, by decide⟩

theorem sha256_length (msg : Bytes) : (sha256 msg).length = 32 := by
  simp [sha256, toBE32]

theorem hmacSha256_length (key msg : Bytes) : (hmacSha256 key msg).length = 32 := by
  simp [hmacSha256, sha256_length]

/-- C5 amended: `verify` never throws on any input (the length guard keeps
`timingSafeEqual` from its length-mismatch exception); it returns `false`
for a missing, non-string or empty token and whenever the stored hash's
lenient hex decoding is not exactly as long as the 32-byte recomputed tag.
An odd-length or non-hex token, however, is decoded leniently to its
longest valid byte-pair prefix rather than rejected, and can still
verify. -/
theorem verify_total_and_false_on_guard_failures :
    (∀ (t? : Option String) (stored : String), ∃ b, verifyE t? stored = Except.ok b) ∧
    (∀ stored, verify none stored = false) ∧
    (∀ stored, verify (some "") stored = false) ∧
    (∀ t stored, (hexDecodeLenient stored).length ≠ 32 →
      verify (some t) stored = false) := by
  refine ⟨?_, fun _ => rfl, fun _ => by simp [verify, verifyE], ?_⟩
  · intro t? stored
    cases t? with
    | none => exact ⟨false, rfl⟩
    | some t =>
      by_cases ht : t = ""
      · subst ht
        exact ⟨false, by simp [verifyE]⟩
      · by_cases hlen : (hmacSha256 (hexDecodeLenient t) purposeBytes).length =
            (hexDecodeLenient stored).length
        · exact ⟨hmacSha256 (hexDecodeLenient t) purposeBytes == hexDecodeLenient stored,
            by simp [verifyE, ht, hlen, timingSafeEqual]⟩
        · exact ⟨false, by simp [verifyE, ht, hlen]⟩
  · intro t stored hlen
    by_cases ht : t = ""
    · subst ht
      simp [verify, verifyE]
    · have hne : (hmacSha256 (hexDecodeLenient t) purposeBytes).length ≠
          (hexDecodeLenient stored).length := by
        rw [hmacSha256_length]
        exact fun h => hlen h.symm
      simp [verify, verifyE, ht, hne]

/-- Witness for C5: a stored hash decoding to one byte verifies nothing. -/
theorem verify_total_and_false_on_guard_failures_witness :
    verify (some "00") "abcd" = false :=
  (verify_total_and_false_on_guard_failures).2.2.2 "00" "abcd" (by decide)

/-! ## C10 — rooms with hashes that do not decode to 32 bytes -/

set_option maxRecDepth 1000000 in
/-- C10 counterexample: the 66-character stored hash `d0Hex ++ "zz"` is not
a 64-character valid-hex string, yet the room is not "permanently
unjoinable": creation accepts the hash, token `"00"` verifies against it
(lenient decoding drops the trailing garbage, leaving exactly 32 bytes),
and the admission middleware accepts the connection. -/
theorem room_with_non_hex64_hash_joinable_cex :
    (String.length (d0Hex ++ "zz") = 66 ∧ isHexString (d0Hex ++ "zz") = false) ∧
    (createRoom ["7"] 0 (some (d0Hex ++ "zz")) []).1 = CreateResult.ok "7" ∧
    verify (some "00") (d0Hex ++ "zz") = true ∧
    middleware "f" "7" (some "00") (some "abc") none
        (createRoom ["7"] 0 (some (d0Hex ++ "zz")) []).2 =
      AdmitDecision.accepted "7" "f" "abc" true := by
  refine ⟨⟨by decide, by decide⟩, by decide, by decide, by decide⟩

/-- C10 amended: room creation accepts any nonempty hash of at most 128
characters; a room whose stored hash does not *leniently* hex-decode
(longest valid byte-pair prefix, Node `Buffer.from` semantics) to exactly
32 bytes is permanently unjoinable — `verify` returns `false` for every
token, so every connection attempt to that room is refused with the
authentication error.  (Because the decoding is lenient, "not a
64-character valid hex string" does not characterize these hashes: a hash
whose first 64 characters are valid hex is joinable despite trailing
garbage.) -/
theorem room_hash_not_decoding_to_32_bytes_unjoinable (stored : String)
    (hlen : (hexDecodeLenient stored).length ≠ 32) :
    (∀ t?, verify t? stored = false) ∧
    (∀ freshId chatId (token eu cid : Option String) (rs : Rooms) room,
      Rooms.get rs chatId = some room → room.serverHash = stored →
      middleware freshId chatId token eu cid rs =
        AdmitDecision.refused "Authentication failed") ∧
    (∀ (g : String) ids (now : Int) (rs : Rooms), stored ≠ "" → stored.length ≤ 128 →
      Rooms.has rs g = false →
      (createRoom (g :: ids) now (some stored) rs).1 = CreateResult.ok g) := by
  have hfalse : ∀ t?, verify t? stored = false := by
    intro t?
    cases t? with
    | none => rfl
    | some t =>
      by_cases ht : t = ""
      · subst ht
        simp [verify, verifyE]
      · have hne : (hmacSha256 (hexDecodeLenient t) purposeBytes).length ≠
            (hexDecodeLenient stored).length := by
          rw [hmacSha256_length]
          exact fun h => hlen h.symm
        simp [verify, verifyE, ht, hne]
  refine ⟨hfalse, ?_, ?_⟩
  · intro freshId chatId token eu cid rs room hr hsh
    have hv : verify token room.serverHash = false := hsh ▸ hfalse token
    simp [middleware, hr, hv]
  · intro g ids now rs hne hl hfree
    have hv : ¬(stored = "" ∨ 128 < stored.length) := by
      push_neg
      exact ⟨hne, hl⟩
    simp [createRoom, hv, hfree]

/-- Witness for the amended C10: the 3-character hash `"abc"` decodes to a
single byte, is accepted at creation, and verifies no token. -/
theorem room_hash_not_decoding_to_32_bytes_unjoinable_witness :
    verify (some "00") "abc" = false ∧
    (createRoom ["9"] 0 (some "abc") []).1 = CreateResult.ok "9" :=
  ⟨(room_hash_not_decoding_to_32_bytes_unjoinable "abc" (by decide)).1 (some "00"),
   (room_hash_not_decoding_to_32_bytes_unjoinable "abc" (by decide)).2.2 "9" [] 0 []
     (by decide) (by decide) (by decide)⟩

/-! ## Hash-primitive test vectors

Validation of the executable SHA-256 / HMAC-SHA256 embedding against the
standard reference digests. -/

set_option maxRecDepth 1000000 in
/-- FIPS 180-4 test vector: SHA-256 of `"abc"`. -/
theorem sha256_abc_vector :
    sha256 (strBytes "abc") =
      hexDecodeLenient "ba7816bf8f01cfea414140de5dae2223b00361a396177a9cb410ff61f20015ad" := by
  decide

set_option maxRecDepth 1000000 in
/-- SHA-256 of the empty byte string. -/
theorem sha256_empty_vector :
    sha256 [] =
      hexDecodeLenient "e3b0c44298fc1c149afbf4c8996fb92427ae41e4649b934ca495991b7852b855" := by
  decide

set_option maxRecDepth 1000000 in
/-- HMAC-SHA256 with the empty key over `"server_verify_purpose"` is the
digest recorded in `d0Hex` (cross-checked with OpenSSL). -/
theorem hmacSha256_emptykey_purpose_vector :
    hmacSha256 [] purposeBytes = hexDecodeLenient d0Hex := by
  decide

end LetsChat
